import Mathlib

/-!
Verification of the VELES/Znicz inference-engine kernels: a shallow
embedding of the C++/OpenCL/CUDA sources (`all2all.cc`,
`gradient_descent_pooling.cl`, `weights_update.store_output.cu`,
`denormalization.jcu`) with the `dtype` floating-point buffers idealized
as rationals, together with theorems about the forward All2All layer,
the pooling backward kernels, the weight-update rule and the
denormalization template.
-/

/- ### SIMD matrix primitives used by `All2All::Execute` -/

/-- Modelled from the spec: `matrix_multiply_transposed` of the SIMD
library is not part of this repository.  Per the spec, the transposed
multiply treats the weight matrix, stored as `input_count` rows by
`output_count` columns, as an `output_count x input_count` matrix applied
to the input column vector: `out[j] = sum_i in[i] * W[i][j]`. -/
def matrix_multiply_transposed (input w : List ℚ) (input_count output_count : ℕ) :
    List ℚ :=
  (List.range output_count).map (fun j =>
    ((List.range input_count).map
      (fun i => input.getD i 0 * w.getD (i * output_count + j) 0)).sum)

/-- Modelled from the spec: `matrix_add` of the SIMD library is not part
of this repository; per the spec it is an elementwise (broadcast-bias)
add of two `1 x cols` row vectors. -/
def matrix_add (a b : List ℚ) (cols : ℕ) : List ℚ :=
  (List.range cols).map (fun j => a.getD j 0 + b.getD j 0)

/- ### The All2All unit (`all2all.cc`) -/

/-- The state of an `All2All` unit: the four registered parameters
(`weights`, `bias`, `weights_length`, `bias_length`) together with the
configured activation function (`ApplyActivationFunction` applies a
unit-configured function elementwise; modelled from the spec as a field,
since the activation classes are not part of this repository). -/
structure All2All where
  weights : List ℚ
  bias : List ℚ
  weights_length : ℕ
  bias_length : ℕ
  activation : ℚ → ℚ

/-- Modelled from the spec: `OutputCount` is declared in `all2all.h`,
which is not part of this repository; per the spec the bias is a
length-`output_count` vector. -/
def All2All.OutputCount (u : All2All) : ℕ := u.bias_length

/-- Modelled from the spec: `InputCount` is declared in `all2all.h`,
which is not part of this repository; per the spec the weight matrix has
`input_count x output_count` elements. -/
def All2All.InputCount (u : All2All) : ℕ := u.weights_length / u.bias_length

/-- `All2All::Execute` (all2all.cc lines 46-55): a transposed
matrix-vector multiply into a fresh temporary buffer, a bias add into the
output buffer, then the elementwise activation on the output buffer. -/
def All2All.Execute (u : All2All) (input : List ℚ) : List ℚ :=
  let tmp := matrix_multiply_transposed input u.weights u.InputCount u.OutputCount
  let out := matrix_add tmp u.bias u.OutputCount
  out.map u.activation

/-- State-passing embedding of `All2All::Execute`: the method is `const`;
its only stores are into the freshly allocated `tmp` buffer and the
caller-provided `out` buffer, so the unit state it returns is the unit
state it received. -/
def All2All.ExecuteS (u : All2All) (input : List ℚ) : List ℚ × All2All :=
  (u.Execute input, u)

/- ### Parameter binding (`All2All::All2All`, `All2All::SetParameter`) -/

/-- A type-erased parameter value (`std::shared_ptr<const void>` with a
runtime type discriminator): either a float-array payload (for `weights`
and `bias`) or a size payload (for `weights_length` and `bias_length`). -/
inductive OpaqueValue where
  | floats (data : List ℚ) : OpaqueValue
  | count (n : ℕ) : OpaqueValue
deriving DecidableEq

/-- The runtime type tag carried by an `OpaqueValue`. -/
inductive ValueTag where
  | floatsTag : ValueTag
  | countTag : ValueTag
deriving DecidableEq

/-- The dynamic type of a value. -/
def OpaqueValue.tag : OpaqueValue → ValueTag
  | .floats _ => .floatsTag
  | .count _ => .countTag

/-- The error taxonomy surfaced by parameter binding: a `TypeMismatch`
carries the parameter name for diagnosis. -/
inductive ZniczError where
  | typeMismatch (param : String) : ZniczError
deriving DecidableEq

/-- Modelled from the spec: `Attribute::GetSetter` (src/attribute.h is
not part of this repository) produces a setter that validates the runtime
type of the injected value before writing and fails with a `TypeMismatch`
error on mismatch.  Setter bound to `weights_`. -/
def setWeights : OpaqueValue → All2All → Except ZniczError All2All
  | .floats d, u => .ok { u with weights := d }
  | _, _ => .error (.typeMismatch "weights")

/-- Modelled from the spec: setter bound to `bias_` (see `setWeights`). -/
def setBias : OpaqueValue → All2All → Except ZniczError All2All
  | .floats d, u => .ok { u with bias := d }
  | _, _ => .error (.typeMismatch "bias")

/-- Modelled from the spec: setter bound to `weights_length_`. -/
def setWeightsLength : OpaqueValue → All2All → Except ZniczError All2All
  | .count n, u => .ok { u with weights_length := n }
  | _, _ => .error (.typeMismatch "weights_length")

/-- Modelled from the spec: setter bound to `bias_length_`. -/
def setBiasLength : OpaqueValue → All2All → Except ZniczError All2All
  | .count n, u => .ok { u with bias_length := n }
  | _, _ => .error (.typeMismatch "bias_length")

/-- The `setters_` map built by the `All2All` constructor (all2all.cc
lines 26-32): the four registered parameter names and their setters. -/
def All2All.setters : List (String × (OpaqueValue → All2All → Except ZniczError All2All)) :=
  [("weights", setWeights),
   ("bias", setBias),
   ("weights_length", setWeightsLength),
   ("bias_length", setBiasLength)]

/-- The expected runtime type of each registered parameter; `none` for an
unregistered name. -/
def expectedTag (name : String) : Option ValueTag :=
  if name = "weights" ∨ name = "bias" then some .floatsTag
  else if name = "weights_length" ∨ name = "bias_length" then some .countTag
  else none

/-- `All2All::SetParameter` (all2all.cc lines 34-40): look the name up in
`setters_`; when found, invoke the bound setter; otherwise do nothing. -/
def All2All.SetParameter (u : All2All) (name : String) (value : OpaqueValue) :
    Except ZniczError All2All :=
  match All2All.setters.lookup name with
  | some f => f value u
  | none => .ok u

/-- A default-constructed `All2All` unit (lengths zero, empty tensors,
identity activation). -/
def All2All.empty : All2All :=
  { weights := [], bias := [], weights_length := 0, bias_length := 0,
    activation := id }

/- ### Max-pooling backward (`gd_max_pooling`) -/

/-- The direct-write scatter pass of `gd_max_pooling` (the
`SLIDE_X >= KX && SLIDE_Y >= KY` configuration, where `USE_ATOMICS` is
left undefined): work item `idx` executes
`err_h[h_offs[idx]] = err_y[idx]` (gradient_descent_pooling.cl line 29),
linearized over the work items. -/
def scatterDirect : List ℚ → List ℕ → List ℚ → List ℚ
  | [], _, err_h => err_h
  | _, [], err_h => err_h
  | e :: es, o :: os, err_h => scatterDirect es os (err_h.set o e)

/-- The accumulating scatter pass of `gd_max_pooling` (the overlapping
configuration, `USE_ATOMICS` defined): work item `idx` executes
`ATOM_ADD(&err_h[h_offs[idx]], err_y[idx])` (line 31), linearized over
the work items (atomic additions commute, so any interleaving yields this
result). -/
def scatterAdd : List ℚ → List ℕ → List ℚ → List ℚ
  | [], _, err_h => err_h
  | _, [], err_h => err_h
  | e :: es, o :: os, err_h => scatterAdd es os (err_h.set o (err_h.getD o 0 + e))

/-- `gd_max_pooling` (gradient_descent_pooling.cl lines 23-33) run with
`global_size = [number of elements in err_y]`: the compile-time branch on
`(SLIDE_X >= KX) && (SLIDE_Y >= KY)` selects the direct write, otherwise
the atomic accumulation (lines 1-3 define `USE_ATOMICS` exactly when
`SLIDE_X < KX || SLIDE_Y < KY`). -/
def gd_max_pooling (kx ky slide_x slide_y : ℕ) (err_y : List ℚ) (h_offs : List ℕ)
    (err_h : List ℚ) : List ℚ :=
  if kx ≤ slide_x ∧ ky ≤ slide_y then scatterDirect err_y h_offs err_h
  else scatterAdd err_y h_offs err_h

/- ### Average-pooling backward (`gd_avg_pooling`) -/

/-- The compile-time macro set of a pooling kernel.  `out_sx`/`out_sy`
are defined in `pooling_common.cl`, which is not part of this repository;
modelled from the spec: the derived output size is computed once at
configuration time and enters the kernel as externally defined constants,
so the embedding carries them as configuration fields. -/
structure PoolCfg where
  sx : ℕ
  sy : ℕ
  n_channels : ℕ
  kx : ℕ
  ky : ℕ
  slide_x : ℕ
  slide_y : ℕ
  out_sx : ℕ
  out_sy : ℕ
deriving DecidableEq

/-- The window x-extent `NX` of `gd_avg_pooling` (lines 66-70): the full
kernel width when the rightmost window exactly meets the input edge
(`(OUT_SX - 1) * SLIDE_X + KX == SX`), otherwise
`MIN(KX, SX - TARGET_PIXEL_X * SLIDE_X)` — the actual clipped element
count of the window of output pixel `px`. -/
def avgNX (sx kx slide_x out_sx px : ℕ) : ℕ :=
  if (out_sx - 1) * slide_x + kx = sx then kx else min kx (sx - px * slide_x)

/-- The window y-extent `NY` of `gd_avg_pooling` (lines 60-64), the
y-axis analogue of `avgNX` for output row `ty` (the row index within one
image, `target_y % OUT_SY`). -/
def avgNY (sy ky slide_y out_sy ty : ℕ) : ℕ :=
  if (out_sy - 1) * slide_y + ky = sy then ky else min ky (sy - ty * slide_y)

/-- One store of the pooling backward inner loop body: direct write in
the non-overlapping configuration, `ATOM_ADD` accumulation otherwise
(gradient_descent_pooling.cl lines 86-90). -/
def poolStore (overlap : Bool) (p : ℕ) (v : ℚ) (h : List ℚ) : List ℚ :=
  if overlap then h.set p (h.getD p 0 + v) else h.set p v

/-- The inner (x) loop of `gd_avg_pooling` (lines 81-91): `j` runs to
`KX`, with the additional bound `x < SX * N_CHANNELS` compiled in exactly
when the rightmost window overhangs the edge (`clipX`).  `x` starts at
`start_x` and advances by `N_CHANNELS`; since it is strictly increasing,
guarding each iteration is equivalent to the loop's early exit. -/
def avgInner (overlap clipX : Bool) (kx nch sxnch offs start_x : ℕ) (v : ℚ)
    (h : List ℚ) : List ℚ :=
  (List.range kx).foldl (fun h j =>
    if clipX = false ∨ start_x + j * nch < sxnch then
      poolStore overlap (offs + (start_x + j * nch)) v h
    else h) h

/-- The outer (y) loop of `gd_avg_pooling` (lines 76-92): `i` runs to
`KY`, with the additional bound `y < SY` compiled in exactly when the
bottom window overhangs the edge (`clipY`); `offs` advances by
`SX * N_CHANNELS` per row.  As in `avgInner`, the guard is equivalent to
the early exit because `y` is strictly increasing. -/
def avgOuter (overlap clipX clipY : Bool) (ky kx nch sxnch sy offs0 start_y start_x : ℕ)
    (v : ℚ) (h : List ℚ) : List ℚ :=
  (List.range ky).foldl (fun h i =>
    if clipY = false ∨ start_y + i < sy then
      avgInner overlap clipX kx nch sxnch (offs0 + i * sxnch) start_x v h
    else h) h

/-- One work item of `gd_avg_pooling` (gradient_descent_pooling.cl lines
52-96).  `TARGET_PIXEL_X` and `TARGET_CHANNEL` are defined in
`pooling_common.cl`, which is not part of this repository; modelled from
the spec: buffers are laid out width x height x channels with channels
interleaved along x, so the pixel index is `target_x / N_CHANNELS` and
the channel is `target_x % N_CHANNELS`. -/
def gd_avg_pooling_item (cfg : PoolCfg) (err_y : List ℚ) (gid : ℕ)
    (err_h : List ℚ) : List ℚ :=
  let target_x := gid % (cfg.out_sx * cfg.n_channels)
  let target_y := gid / (cfg.out_sx * cfg.n_channels)
  let px := target_x / cfg.n_channels
  let ch := target_x % cfg.n_channels
  let start_x := px * cfg.slide_x * cfg.n_channels + ch
  let start_y := (target_y % cfg.out_sy) * cfg.slide_y
  let ny := avgNY cfg.sy cfg.ky cfg.slide_y cfg.out_sy (target_y % cfg.out_sy)
  let nx := avgNX cfg.sx cfg.kx cfg.slide_x cfg.out_sx px
  let idx := target_y * (cfg.out_sx * cfg.n_channels) + target_x
  let avg := err_y.getD idx 0 / ((ny : ℚ) * (nx : ℚ))
  let offs0 := ((target_y / cfg.out_sy) * cfg.sy + start_y) * (cfg.sx * cfg.n_channels)
  let overlap := decide (cfg.slide_x < cfg.kx ∨ cfg.slide_y < cfg.ky)
  let clipY := decide (¬ ((cfg.out_sy - 1) * cfg.slide_y + cfg.ky = cfg.sy))
  let clipX := decide (¬ ((cfg.out_sx - 1) * cfg.slide_x + cfg.kx = cfg.sx))
  avgOuter overlap clipX clipY cfg.ky cfg.kx cfg.n_channels
    (cfg.sx * cfg.n_channels) cfg.sy offs0 start_y start_x avg err_h

/-- `gd_avg_pooling` run with `global_size = [number of elements in
err_y]`, linearized over the work items. -/
def gd_avg_pooling (cfg : PoolCfg) (err_y : List ℚ) (err_h : List ℚ) : List ℚ :=
  (List.range err_y.length).foldl
    (fun h gid => gd_avg_pooling_item cfg err_y gid h) err_h

/- ### Weight update (`weights_update`, `weights_update.store_output.cu`) -/

/-- The sign of a weight, used by the L1 regularization gradient. -/
def signQ (w : ℚ) : ℚ := if 0 < w then 1 else if w < 0 then -1 else 0

/-- Modelled from the spec: `gradient_step_l12` is defined in
`gradient_descent_common.cl`/`.cu`, which is not part of this repository.
Per the spec, `L1L2Penalty` blends the L1 and L2 regularization gradients
via the `l1_vs_l2` mixing coefficient (0 = pure L2 `factor_l12 * weight`,
1 = pure L1 `factor_l12 * sign(weight)`). -/
def gradient_step_l12 (weight factor_l12 l1_vs_l2 : ℚ) : ℚ :=
  factor_l12 * ((1 - l1_vs_l2) * weight + l1_vs_l2 * signQ weight)

/-- One element of `weights_update` (gradient_descent_pooling.cl lines
114-132 with the included `weights_update.store_output.cu` lines 1-12):
`sum = gradient[idx]`, then
`gd = -lr * (sum + gradient_step_l12(weight, factor_l12, l1_vs_l2) +
[gradient_step_ortho(weight, factor_ortho, col, Y, col_sums)])`, where
the orthogonality term is compiled in exactly when `USE_ORTHO > 0` and
its column index is `idx / Y` when `WEIGHTS_TRANSPOSED > 0` and
`idx % H` otherwise.  `gradient_step_ortho` lives in `weights_ortho.cl`,
which is not part of this repository, so it is a parameter `ortho`
(weight, factor, column index, `Y`, column sums).  The final store is
from `gradient_descent.store_output.cu`, also not part of this
repository; modelled from the spec: with momentum zero the applied delta
is the raw `gd`, so `weights[idx] = weight + gd`. -/
def weights_update_elem (use_ortho weights_transposed : Bool) (Y H : ℕ)
    (ortho : ℚ → ℚ → ℕ → ℕ → List ℚ → ℚ)
    (lr factor_l12 l1_vs_l2 factor_ortho : ℚ)
    (col_sums : List ℚ) (weight grad : ℚ) (idx : ℕ) : ℚ :=
  let sum := grad
  let gd := -lr * (sum + gradient_step_l12 weight factor_l12 l1_vs_l2 +
    (if use_ortho then
      ortho weight factor_ortho
        (if weights_transposed then idx / Y else idx % H) Y col_sums
     else 0))
  weight + gd

/-- The `weights_update` kernel over the whole weight buffer, one work
item per weight element. -/
def weights_update (use_ortho weights_transposed : Bool) (Y H : ℕ)
    (ortho : ℚ → ℚ → ℕ → ℕ → List ℚ → ℚ)
    (lr factor_l12 l1_vs_l2 factor_ortho : ℚ)
    (weights gradient col_sums : List ℚ) : List ℚ :=
  (List.range weights.length).map (fun idx =>
    weights_update_elem use_ortho weights_transposed Y H ortho
      lr factor_l12 l1_vs_l2 factor_ortho col_sums
      (weights.getD idx 0) (gradient.getD idx 0) idx)

/- ### Denormalization template (`denormalization.jcu`) -/

/-- The error raised when kernel template expansion meets an unsupported
configuration (the `#error Unsupported normalization type` branch of
`denormalization.jcu`, which refuses to produce a compilable kernel). -/
inductive ConfigurationError where
  | unsupportedNormalization (mode : String) : ConfigurationError
deriving DecidableEq

/-- Template expansion of `denormalization.jcu`: for each recognized
normalization mode the expansion produces the `denormalize(src, index)`
device function of that mode (with the `range_linear` constants folded at
expansion time as in lines 8-9); any other mode hits the `#error`
directive, so no kernel is produced.  The template's `coeffs` entries are
arrays for `pointwise`/`mean_disp` and scalars for `range_linear`; the
embedding carries them as lists and reads a scalar as the head. -/
def expandDenormalize (mode : String) (coeffs : List (List ℚ)) :
    Except ConfigurationError (ℚ → ℕ → ℚ) :=
  let c := fun i => (coeffs.getD i []).headD 0
  if mode = "pointwise" then
    let mul := coeffs.getD 0 []
    let sub := coeffs.getD 1 []
    .ok (fun src index => (src - sub.getD index 0) / mul.getD index 0)
  else if mode = "mean_disp" then
    let mean := coeffs.getD 0 []
    let disp := coeffs.getD 1 []
    .ok (fun src index => src * disp.getD index 0 + mean.getD index 0)
  else if mode = "none" then
    .ok (fun src _ => src)
  else if mode = "range_linear" then
    let sub := (c 2 * c 1 - c 3 * c 0) / (c 2 - c 3)
    let mul := (c 2 - c 3) / (c 0 - c 1)
    .ok (fun src _ => (src - sub) * mul)
  else
    .error (.unsupportedNormalization mode)

/-- The normalization modes `denormalization.jcu` recognizes. -/
def recognizedNormalizations : List String :=
  ["none", "pointwise", "mean_disp", "range_linear"]

/- ### Buffer helper lemmas -/

/-- Setting one cell leaves every other cell unchanged. -/
theorem getD_set_of_ne (l : List ℚ) (i j : ℕ) (a : ℚ) (h : i ≠ j) :
    (l.set i a).getD j 0 = l.getD j 0 := by
  simp [List.getD, List.getElem?_set_ne h]

/-- Setting an in-bounds cell stores the value there. -/
theorem getD_set_self (l : List ℚ) (i : ℕ) (a : ℚ) (h : i < l.length) :
    (l.set i a).getD i 0 = a := by
  simp [List.getD, List.getElem?_set_self, h]

/-- How an in-bounds store changes the buffer sum. -/
theorem sum_set (l : List ℚ) (i : ℕ) (a : ℚ) : i < l.length →
    (l.set i a).sum = l.sum - l.getD i 0 + a := by
  induction l generalizing i with
  | nil => simp
  | cons x xs ih =>
    cases i with
    | zero => intro _; simp [List.set]; ring
    | succ n =>
      intro h
      simp only [List.set, List.sum_cons, List.getD_cons_succ]
      rw [ih n (by simpa using h)]
      ring

/-- The direct scatter pass preserves the buffer length. -/
theorem scatterDirect_length (es : List ℚ) (os : List ℕ) (h : List ℚ) :
    (scatterDirect es os h).length = h.length := by
  induction es generalizing os h with
  | nil => simp [scatterDirect]
  | cons e es ih =>
    cases os with
    | nil => simp [scatterDirect]
    | cons o os => simp [scatterDirect, ih, List.length_set]

/-- The direct scatter pass leaves every position outside the offset list
untouched. -/
theorem scatterDirect_frame (es : List ℚ) (os : List ℕ) (h : List ℚ) (p : ℕ)
    (hp : p ∉ os) : (scatterDirect es os h).getD p 0 = h.getD p 0 := by
  induction es generalizing os h with
  | nil => simp [scatterDirect]
  | cons e es ih =>
    cases os with
    | nil => simp [scatterDirect]
    | cons o os =>
      simp only [List.mem_cons, not_or] at hp
      rw [scatterDirect, ih os _ hp.2, getD_set_of_ne _ _ _ _ (Ne.symm hp.1)]

/-- With pairwise distinct in-bounds offsets, the direct scatter pass
stores value `j` exactly at offset `j`. -/
theorem scatterDirect_getD (es : List ℚ) (os : List ℕ) (h : List ℚ)
    (hnd : os.Nodup) (hbound : ∀ o ∈ os, o < h.length) (j : ℕ)
    (hj : j < es.length) (hj2 : j < os.length) :
    (scatterDirect es os h).getD (os.getD j 0) 0 = es.getD j 0 := by
  induction es generalizing os h j with
  | nil => simp at hj
  | cons e es ih =>
    cases os with
    | nil => simp at hj2
    | cons o os =>
      cases j with
      | zero =>
        rw [scatterDirect, List.getD_cons_zero, List.getD_cons_zero,
          scatterDirect_frame es os _ o (List.Nodup.not_mem hnd),
          getD_set_self _ _ _ (hbound o (List.mem_cons_self o os))]
      | succ n =>
        rw [scatterDirect, List.getD_cons_succ, List.getD_cons_succ]
        exact ih os _ (List.Nodup.of_cons hnd)
          (fun o' ho' => by rw [List.length_set]; exact hbound o' (List.mem_cons_of_mem o ho'))
          n (by simpa using hj) (by simpa using hj2)

/-- With pairwise distinct in-bounds offsets all pointing at zero cells,
the direct scatter pass adds exactly the scattered total to the buffer
sum. -/
theorem scatterDirect_sum (es : List ℚ) (os : List ℕ) (h : List ℚ)
    (hnd : os.Nodup) (hbound : ∀ o ∈ os, o < h.length)
    (hzero : ∀ o ∈ os, h.getD o 0 = 0) (hlen : es.length = os.length) :
    (scatterDirect es os h).sum = h.sum + es.sum := by
  induction es generalizing os h with
  | nil =>
    cases os with
    | nil => simp [scatterDirect]
    | cons o os => simp at hlen
  | cons e es ih =>
    cases os with
    | nil => simp at hlen
    | cons o os =>
      rw [scatterDirect, ih os _ (List.Nodup.of_cons hnd)
        (fun o' ho' => by rw [List.length_set]; exact hbound o' (List.mem_cons_of_mem o ho'))
        (fun o' ho' => by
          rw [getD_set_of_ne _ _ _ _
            (fun heq => (List.Nodup.not_mem hnd) (by rw [heq]; exact ho'))]
          exact hzero o' (List.mem_cons_of_mem o ho'))
        (by simpa using hlen)]
      rw [sum_set _ _ _ (hbound o (List.mem_cons_self o os)),
        hzero o (List.mem_cons_self o os)]
      simp [List.sum_cons]
      ring

/-- The accumulating scatter pass adds to each in-bounds cell exactly the
values whose offsets point at it. -/
theorem scatterAdd_getD (es : List ℚ) (os : List ℕ) (h : List ℚ) (p : ℕ)
    (hbound : ∀ o ∈ os, o < h.length) (hp : p < h.length) :
    (scatterAdd es os h).getD p 0 =
      h.getD p 0 + (List.zipWith (fun e o => if o = p then e else 0) es os).sum := by
  induction es generalizing os h with
  | nil => simp [scatterAdd]
  | cons e es ih =>
    cases os with
    | nil => simp [scatterAdd]
    | cons o os =>
      rw [scatterAdd, ih os _
        (fun o' ho' => by rw [List.length_set]; exact hbound o' (List.mem_cons_of_mem o ho'))
        (by rw [List.length_set]; exact hp)]
      simp only [List.zipWith_cons_cons, List.sum_cons]
      by_cases hop : o = p
      · subst hop
        rw [getD_set_self _ _ _ (hbound o (List.mem_cons_self o os)), if_pos rfl]
        ring
      · rw [getD_set_of_ne _ _ _ _ hop]
        simp only [if_neg hop]
        ring

/-- Every cell of a zero-filled buffer reads as zero. -/
theorem getD_replicate_zero (n i : ℕ) : (List.replicate n (0 : ℚ)).getD i 0 = 0 := by
  induction n generalizing i with
  | zero => simp
  | succ m ih =>
    cases i with
    | zero => simp [List.replicate]
    | succ k => simp only [List.replicate, List.getD_cons_succ]; exact ih k

/- ### Claim C3: max-pooling backward scatter semantics -/

/-- C3: max-pooling backward scatters each output-error element
`err_y[idx]` to the single input position `h_offs[idx]` recorded as the
forward arg-max; with `SLIDE_X >= KX` and `SLIDE_Y >= KY`
(non-overlapping windows, so the recorded arg-max positions are pairwise
distinct) it is a direct write, and with `SLIDE_X < KX` or `SLIDE_Y < KY`
it accumulates by atomic add, under the precondition that `err_h` is
zero-initialized before the pass. -/
theorem C3_max_pooling_scatter (kx ky slide_x slide_y n : ℕ)
    (err_y : List ℚ) (h_offs : List ℕ)
    (hlen : h_offs.length = err_y.length)
    (hbound : ∀ o ∈ h_offs, o < n) :
    ((kx ≤ slide_x ∧ ky ≤ slide_y) → h_offs.Nodup →
      ∀ idx, idx < err_y.length →
        (gd_max_pooling kx ky slide_x slide_y err_y h_offs
            (List.replicate n 0)).getD (h_offs.getD idx 0) 0 = err_y.getD idx 0) ∧
    (¬ (kx ≤ slide_x ∧ ky ≤ slide_y) →
      ∀ p, p < n →
        (gd_max_pooling kx ky slide_x slide_y err_y h_offs
            (List.replicate n 0)).getD p 0 =
          (List.zipWith (fun e o => if o = p then e else 0) err_y h_offs).sum) := by
  constructor
  · intro hnov hnd idx hidx
    rw [gd_max_pooling, if_pos hnov]
    exact scatterDirect_getD err_y h_offs _ hnd
      (fun o ho => by simpa using hbound o ho) idx hidx (by rw [hlen]; exact hidx)
  · intro hov p hp
    rw [gd_max_pooling, if_neg hov,
      scatterAdd_getD err_y h_offs _ p (fun o ho => by simpa using hbound o ho)
        (by simpa using hp)]
    simp [List.getD, List.getElem?_replicate, hp]

/-- Witness for C3 at a concrete non-overlapping configuration. -/
theorem C3_max_pooling_scatter_witness :
    (gd_max_pooling 2 2 2 2 [3, 5] [1, 2] (List.replicate 4 0)).getD
      (List.getD [1, 2] 0 0) 0 = List.getD [3, 5] 0 0 :=
  (C3_max_pooling_scatter 2 2 2 2 4 [3, 5] [1, 2] (by decide)
    (by decide)).1 (by decide) (by decide) 0 (by decide)

/- ### Claim C5: impulse routing and conservation -/

/-- C5: for non-overlapping windows, with valid (pairwise distinct,
in-bounds) arg-max offsets and a zero-initialized destination, the sum of
the scattered errors equals the sum of the output-error buffer
(conservation), and a unit impulse at output position `i` lands exactly
at the recorded arg-max position `h_offs[i]` and nowhere else. -/
theorem C5_max_pooling_impulse_conservation (kx ky slide_x slide_y n : ℕ)
    (err_y : List ℚ) (h_offs : List ℕ)
    (hnovx : kx ≤ slide_x) (hnovy : ky ≤ slide_y)
    (hnd : h_offs.Nodup) (hbound : ∀ o ∈ h_offs, o < n)
    (hlen : h_offs.length = err_y.length) :
    (gd_max_pooling kx ky slide_x slide_y err_y h_offs
        (List.replicate n 0)).sum = err_y.sum ∧
    (∀ i, i < err_y.length →
      (gd_max_pooling kx ky slide_x slide_y
          ((List.replicate err_y.length (0 : ℚ)).set i 1) h_offs
          (List.replicate n 0)).getD (h_offs.getD i 0) 0 = 1 ∧
      ∀ p, p < n → p ≠ h_offs.getD i 0 →
        (gd_max_pooling kx ky slide_x slide_y
            ((List.replicate err_y.length (0 : ℚ)).set i 1) h_offs
            (List.replicate n 0)).getD p 0 = 0) := by
  have hnov : kx ≤ slide_x ∧ ky ≤ slide_y := ⟨hnovx, hnovy⟩
  have hbound' : ∀ o ∈ h_offs, o < (List.replicate n (0 : ℚ)).length :=
    fun o ho => by simpa using hbound o ho
  constructor
  · rw [gd_max_pooling, if_pos hnov,
      scatterDirect_sum err_y h_offs _ hnd hbound'
        (fun o _ => getD_replicate_zero n o)
        (hlen.symm)]
    simp [List.sum_replicate]
  · intro i hi
    have hilen : i < ((List.replicate err_y.length (0 : ℚ)).set i 1).length := by
      simpa using hi
    constructor
    · rw [gd_max_pooling, if_pos hnov,
        scatterDirect_getD _ h_offs _ hnd hbound' i hilen (by rw [hlen]; exact hi),
        getD_set_self _ _ _ (by simpa using hi)]
    · intro p hp hpne
      rw [gd_max_pooling, if_pos hnov]
      by_cases hmem : p ∈ h_offs
      · obtain ⟨j, hj, hjp⟩ := List.mem_iff_getElem.mp hmem
        have hjD : h_offs.getD j 0 = p := by
          rw [List.getD_eq_getElem?_getD, List.getElem?_eq_getElem hj]; exact hjp
        have hji : j ≠ i := fun heq => hpne (by rw [← hjD, heq])
        rw [← hjD, scatterDirect_getD _ h_offs _ hnd hbound' j
          (by simpa [hlen] using hj) hj,
          getD_set_of_ne _ _ _ _ (Ne.symm hji)]
        exact getD_replicate_zero _ j
      · rw [scatterDirect_frame _ _ _ _ hmem]
        simp [List.getD, List.getElem?_replicate, hp]

/-- Witness for C5 at a concrete configuration: two windows, arg-max
offsets 2 and 0 in a length-4 destination. -/
theorem C5_max_pooling_impulse_conservation_witness :
    (gd_max_pooling 2 2 3 2 [4, 9] [2, 0] (List.replicate 4 0)).sum =
      List.sum [(4 : ℚ), 9] :=
  (C5_max_pooling_impulse_conservation 2 2 3 2 4 [4, 9] [2, 0]
    (by decide) (by decide) (by decide) (by decide) (by decide)).1

/- ### Claim C10: the direct-write case writes only listed positions -/

/-- C10: in the non-overlapping case, `gd_max_pooling` writes only the
positions listed in `h_offs`; any position not occurring in `h_offs`
retains its prior value, so stale nonzero contents survive the call and
the documented zero-fill of `err_h` is a genuine caller obligation even
for the direct-write configuration. -/
theorem C10_max_pooling_unwritten_positions (kx ky slide_x slide_y : ℕ)
    (err_y : List ℚ) (h_offs : List ℕ) (err_h : List ℚ) (p : ℕ)
    (hnovx : kx ≤ slide_x) (hnovy : ky ≤ slide_y) (hp : p ∉ h_offs) :
    (gd_max_pooling kx ky slide_x slide_y err_y h_offs err_h).getD p 0 =
      err_h.getD p 0 := by
  rw [gd_max_pooling, if_pos ⟨hnovx, hnovy⟩]
  exact scatterDirect_frame err_y h_offs err_h p hp

/-- Witness for C10: a stale value 7 at the unreferenced position 0
survives the direct-write pass. -/
theorem C10_max_pooling_unwritten_positions_witness :
    (gd_max_pooling 1 1 1 1 [5] [1] [7, 0]).getD 0 0 = List.getD [(7 : ℚ), 0] 0 0 :=
  C10_max_pooling_unwritten_positions 1 1 1 1 [5] [1] [7, 0] 0
    (by decide) (by decide) (by decide)

/- ### Claim C1: All2All forward computes activation(W^T x + b) -/

/-- Reading a cell of a generated row vector. -/
theorem getD_range_map (f : ℕ → ℚ) (n j : ℕ) (hj : j < n) :
    ((List.range n).map f).getD j 0 = f j := by
  simp [List.getD, List.getElem?_map, List.getElem?_range, hj]

/-- C1: for a weight matrix stored as `input_count` rows by
`output_count` columns, `All2All::Execute` with the identity activation
computes `out = W^T x + b`: every output cell `j` equals coordinate `j`
of the matrix-vector product of the transposed weight matrix
(`output_count x input_count`) with the input column vector, plus the
bias, matching Mathlib's `Matrix.transpose`/`Matrix.mulVec`. -/
theorem C1_all2all_forward (u : All2All) (x : List ℚ) (m n : ℕ)
    (hact : u.activation = id) (hm : u.InputCount = m) (hn : u.OutputCount = n)
    (j : ℕ) (hj : j < n) :
    (u.Execute x).getD j 0 =
      Matrix.mulVec
        (Matrix.transpose (Matrix.of
          fun (i : Fin m) (k : Fin n) => u.weights.getD (i * n + k) 0))
        (fun i : Fin m => x.getD i 0) ⟨j, hj⟩ +
      u.bias.getD j 0 := by
  rw [All2All.Execute]
  simp only [hact, List.map_id, hm, hn]
  rw [matrix_add, getD_range_map _ _ _ hj,
    matrix_multiply_transposed, getD_range_map _ _ _ hj]
  congr 1
  rw [Matrix.mulVec, Matrix.dotProduct]
  show (∑ i ∈ Finset.range m,
      x.getD i 0 * u.weights.getD (i * n + j) 0) = _
  rw [← Fin.sum_univ_eq_sum_range
    (fun i => x.getD i 0 * u.weights.getD (i * n + j) 0)]
  refine Finset.sum_congr rfl (fun i _ => ?_)
  simp [Matrix.transpose_apply, Matrix.of_apply]
  ring

/-- Witness for C1: a 3-input, 2-output layer with weights
`[[1,2],[3,4],[5,6]]`, bias `[10,20]` and input `[1,2,3]` yields
`1*1 + 3*2 + 5*3 + 10 = 32` at output 0. -/
theorem C1_all2all_forward_witness :
    0 < All2All.OutputCount ⟨[1, 2, 3, 4, 5, 6], [10, 20], 6, 2, id⟩ ∧
    (All2All.Execute ⟨[1, 2, 3, 4, 5, 6], [10, 20], 6, 2, id⟩
      [1, 2, 3]).getD 0 0 = 32 := by
  refine ⟨by decide, ?_⟩
  have h := C1_all2all_forward ⟨[1, 2, 3, 4, 5, 6], [10, 20], 6, 2, id⟩ [1, 2, 3]
    3 2 rfl rfl rfl 0 (by decide)
  rw [h, Matrix.mulVec, Matrix.dotProduct]
  simp only [Matrix.transpose_apply, Matrix.of_apply, Fin.sum_univ_three]
  norm_num

/- ### Claim C9: Execute is deterministic and does not mutate the unit -/

/-- C9: `All2All::Execute` is deterministic and pure with respect to the
unit's parameters: two executions on units with identical weights, bias,
lengths and activation produce identical output buffers, and the unit
state after an execution is the unit state before it. -/
theorem C9_execute_deterministic_pure (u v : All2All) (input : List ℚ)
    (hw : u.weights = v.weights) (hb : u.bias = v.bias)
    (hwl : u.weights_length = v.weights_length)
    (hbl : u.bias_length = v.bias_length)
    (hact : u.activation = v.activation) :
    (u.ExecuteS input).1 = (v.ExecuteS input).1 ∧
    (u.ExecuteS input).2 = u := by
  obtain ⟨w1, b1, l1, l2, a1⟩ := u
  obtain ⟨w2, b2, l3, l4, a2⟩ := v
  cases hw; cases hb; cases hwl; cases hbl; cases hact
  exact ⟨rfl, rfl⟩

/-- Witness for C9 on a concrete 2-input, 1-output unit. -/
theorem C9_execute_deterministic_pure_witness :
    ((All2All.ExecuteS ⟨[1, 2], [3], 2, 1, id⟩ [5, 7]).1 =
      (All2All.ExecuteS ⟨[1, 2], [3], 2, 1, id⟩ [5, 7]).1) ∧
    (All2All.ExecuteS ⟨[1, 2], [3], 2, 1, id⟩ [5, 7]).2 =
      ⟨[1, 2], [3], 2, 1, id⟩ :=
  C9_execute_deterministic_pure ⟨[1, 2], [3], 2, 1, id⟩ ⟨[1, 2], [3], 2, 1, id⟩
    [5, 7] rfl rfl rfl rfl rfl

/- ### Claim C7: SetParameter lookup and type checking -/

/-- C7: `SetParameter(name, value)` is a no-op when `name` is not among
the registered parameter names (the state is returned unchanged and no
error is raised), and when `name` is registered it invokes the bound
setter, which fails with a TypeMismatch error whenever the opaque value's
dynamic type differs from the target field's expected type. -/
theorem C7_set_parameter (u : All2All) (name : String) (value : OpaqueValue) :
    (name ∉ All2All.setters.map Prod.fst →
      u.SetParameter name value = .ok u) ∧
    (∀ t, expectedTag name = some t → value.tag ≠ t →
      u.SetParameter name value = .error (.typeMismatch name)) := by
  constructor
  · intro hname
    simp only [All2All.setters, List.map_cons, List.map_nil, List.mem_cons,
      List.not_mem_nil, or_false, not_or] at hname
    obtain ⟨h1, h2, h3, h4⟩ := hname
    have b1 : (name == "weights") = false := beq_eq_false_iff_ne.mpr h1
    have b2 : (name == "bias") = false := beq_eq_false_iff_ne.mpr h2
    have b3 : (name == "weights_length") = false := beq_eq_false_iff_ne.mpr h3
    have b4 : (name == "bias_length") = false := beq_eq_false_iff_ne.mpr h4
    rw [All2All.SetParameter]
    simp [All2All.setters, List.lookup, b1, b2, b3, b4]
  · intro t ht hv
    by_cases h1 : name = "weights"
    · subst h1
      simp only [show expectedTag "weights" = some ValueTag.floatsTag from by decide,
        Option.some.injEq] at ht
      subst ht
      cases value with
      | floats d => exact absurd rfl hv
      | count k => rfl
    · by_cases h2 : name = "bias"
      · subst h2
        simp only [show expectedTag "bias" = some ValueTag.floatsTag from by decide,
          Option.some.injEq] at ht
        subst ht
        cases value with
        | floats d => exact absurd rfl hv
        | count k => rfl
      · by_cases h3 : name = "weights_length"
        · subst h3
          simp only [show expectedTag "weights_length" = some ValueTag.countTag from by decide,
            Option.some.injEq] at ht
          subst ht
          cases value with
          | floats d => rfl
          | count k => exact absurd rfl hv
        · by_cases h4 : name = "bias_length"
          · subst h4
            simp only [show expectedTag "bias_length" = some ValueTag.countTag from by decide,
              Option.some.injEq] at ht
            subst ht
            cases value with
            | floats d => rfl
            | count k => exact absurd rfl hv
          · simp [expectedTag, h1, h2, h3, h4] at ht

/-- Witness for C7: the unregistered name `"frobnicate"` is tolerated as
a no-op, and injecting a count where `"weights"` expects a float array
fails with a TypeMismatch naming the parameter. -/
theorem C7_set_parameter_witness :
    All2All.SetParameter All2All.empty "frobnicate" (.count 3) =
      .ok All2All.empty ∧
    All2All.SetParameter All2All.empty "weights" (.count 3) =
      .error (.typeMismatch "weights") :=
  ⟨(C7_set_parameter All2All.empty "frobnicate" (.count 3)).1 (by decide),
   (C7_set_parameter All2All.empty "weights" (.count 3)).2
     ValueTag.floatsTag (by decide) (by decide)⟩

/- ### Claim C6: the l1_vs_l2 blend endpoints -/

/-- C6: for every weight `w`, the L1/L2 regularization gradient term with
`l1_vs_l2 = 0` equals exactly the pure L2 gradient `factor_l12 * w`, and
with `l1_vs_l2 = 1` exactly the pure L1 gradient
`factor_l12 * sign(w)`. -/
theorem C6_l1l2_endpoints (w factor_l12 : ℚ) :
    gradient_step_l12 w factor_l12 0 = factor_l12 * w ∧
    gradient_step_l12 w factor_l12 1 = factor_l12 * signQ w := by
  unfold gradient_step_l12
  constructor <;> ring

/- ### Claim C2: the weight-update step -/

/-- C2: the weight-update step computes
`new_weight = weight - lr * (gradient + L1L2Penalty(weight, factor_l12,
l1_vs_l2) + OrthogonalityPenalty(weight, factor_ortho, column_sums))`,
where the orthogonality term is present exactly when orthogonality
regularization is compiled in, and its column-sum index is `idx / Y` for
a transposed weight matrix and `idx % H` otherwise. -/
theorem C2_weights_update_formula (use_ortho weights_transposed : Bool)
    (Y H : ℕ) (ortho : ℚ → ℚ → ℕ → ℕ → List ℚ → ℚ)
    (lr factor_l12 l1_vs_l2 factor_ortho : ℚ)
    (weights gradient col_sums : List ℚ) (idx : ℕ)
    (hidx : idx < weights.length) :
    (weights_update use_ortho weights_transposed Y H ortho
        lr factor_l12 l1_vs_l2 factor_ortho weights gradient col_sums).getD idx 0 =
      weights.getD idx 0 -
        lr * (gradient.getD idx 0 +
          gradient_step_l12 (weights.getD idx 0) factor_l12 l1_vs_l2 +
          (if use_ortho then
            ortho (weights.getD idx 0) factor_ortho
              (if weights_transposed then idx / Y else idx % H) Y col_sums
           else 0)) := by
  rw [weights_update, getD_range_map _ _ _ hidx, weights_update_elem]
  ring

/-- Witness for C2: a concrete update with the orthogonality term
enabled, non-transposed layout and a concrete penalty function. -/
theorem C2_weights_update_formula_witness :
    (weights_update true false 3 2 (fun _ f c _ cs => f * cs.getD c 0)
        2 3 0 5 [4, 6] [1, 2] [10, 20]).getD 0 0 =
      List.getD [(4 : ℚ), 6] 0 0 -
        2 * (List.getD [(1 : ℚ), 2] 0 0 +
          gradient_step_l12 (List.getD [(4 : ℚ), 6] 0 0) 3 0 +
          (if true then
            (fun (_ : ℚ) (f : ℚ) (c : ℕ) (_ : ℕ) (cs : List ℚ) => f * cs.getD c 0)
              (List.getD [(4 : ℚ), 6] 0 0) 5 (if false then 0 / 3 else 0 % 2) 3
              [10, 20]
           else 0)) :=
  C2_weights_update_formula true false 3 2 (fun _ f c _ cs => f * cs.getD c 0)
    2 3 0 5 [4, 6] [1, 2] [10, 20] 0 (by decide)

/- ### Claim C8: denormalization template expansion -/

/-- C8: kernel template expansion with a normalization mode outside
`{none, pointwise, mean_disp, range_linear}` fails with a
ConfigurationError and never produces a runnable kernel, while every
recognized mode yields a denormalize function. -/
theorem C8_denormalization_modes (mode : String) (coeffs : List (List ℚ)) :
    (mode ∉ recognizedNormalizations →
      expandDenormalize mode coeffs =
        .error (.unsupportedNormalization mode)) ∧
    (mode ∈ recognizedNormalizations →
      ∃ f, expandDenormalize mode coeffs = .ok f) := by
  constructor
  · intro h
    simp only [recognizedNormalizations, List.mem_cons, List.not_mem_nil,
      or_false, not_or] at h
    obtain ⟨h1, h2, h3, h4⟩ := h
    rw [expandDenormalize]
    simp [h1, h2, h3, h4]
  · intro h
    simp only [recognizedNormalizations, List.mem_cons, List.not_mem_nil,
      or_false] at h
    rcases h with h | h | h | h <;> subst h <;> exact ⟨_, rfl⟩

/-- Witness for C8: the unrecognized mode `"gaussian"` fails expansion
with a ConfigurationError, and the recognized mode `"none"` produces a
denormalize function. -/
theorem C8_denormalization_modes_witness :
    expandDenormalize "gaussian" [] =
      .error (.unsupportedNormalization "gaussian") ∧
    ∃ f, expandDenormalize "none" [] = .ok f :=
  ⟨(C8_denormalization_modes "gaussian" []).1 (by decide),
   (C8_denormalization_modes "none" []).2 (by decide)⟩

/- ### Claim C4: avg-pooling backward clipped-window divisor -/

/-- C4 counterexample: with `SX = 5`, `KX = 3`, `SLIDE_X = 2` (1-D slice,
`SY = KY = SLIDE_Y = 1`, one channel), window starts are multiples of
`SLIDE_X = 2`, so the clipped count `MIN(KX, SX - px * SLIDE_X)` is never
2: the clipped final window (output pixel 2 with `OUT_SX = 3`) has
divisor 1, and for a uniform unit error field the final input position
accumulates `1/3 + 1/1`, not the `1/3 + 1/2` a divisor of 2 would
give. -/
theorem C4_avg_pooling_divisor_counterexample :
    avgNX 5 3 2 3 2 = 1 ∧
    avgNX 5 3 2 3 2 ≠ 2 ∧
    ((List.range 8).all fun out_sx =>
      (List.range 8).all fun px => avgNX 5 3 2 out_sx px != 2) = true ∧
    (gd_avg_pooling ⟨5, 1, 1, 3, 1, 2, 1, 3, 1⟩ [1, 1, 1]
        (List.replicate 5 0)).getD 4 0 = 1 / 3 + 1 ∧
    (gd_avg_pooling ⟨5, 1, 1, 3, 1, 2, 1, 3, 1⟩ [1, 1, 1]
        (List.replicate 5 0)).getD 4 0 ≠ 1 / 3 + 1 / 2 := by
  refine ⟨by decide, by decide, by decide, ?_, ?_⟩ <;>
    norm_num [gd_avg_pooling, gd_avg_pooling_item, avgOuter, avgInner, poolStore,
      avgNX, avgNY, List.range_succ, List.replicate]

/-- C4 (amended): average-pooling backward gives every input position
inside a window the value `error / windowElementCount`, where the
element count of a boundary window clipped by the input edge is the
actual clipped count `MIN(KX, SX - px * SLIDE_X)`, not the nominal
kernel area; in particular, for a uniform error field of value `c` with
`SX = 5`, `KX = 3`, `SLIDE_X = 2`, the clipped final window along x uses
divisor 1, not 3 — position 4 accumulates `c/3 + c/1`. -/
theorem C4_avg_pooling_clipped_divisor :
    (∀ sx kx slide_x out_sx px : ℕ, ¬ ((out_sx - 1) * slide_x + kx = sx) →
      avgNX sx kx slide_x out_sx px = min kx (sx - px * slide_x)) ∧
    (∀ c : ℚ,
      gd_avg_pooling ⟨5, 1, 1, 3, 1, 2, 1, 3, 1⟩ [c, c, c]
          (List.replicate 5 0) =
        [c / 3, c / 3, c / 3 + c / 3, c / 3, c / 3 + c]) := by
  constructor
  · intro sx kx slide_x out_sx px h
    rw [avgNX, if_neg h]
  · intro c
    norm_num [gd_avg_pooling, gd_avg_pooling_item, avgOuter, avgInner, poolStore,
      avgNX, avgNY, List.range_succ, List.replicate]

/-- Witness for the amended C4 at the concrete clipped configuration and
a uniform field of value 2. -/
theorem C4_avg_pooling_clipped_divisor_witness :
    avgNX 5 3 2 3 2 = min 3 (5 - 2 * 2) ∧
    gd_avg_pooling ⟨5, 1, 1, 3, 1, 2, 1, 3, 1⟩ [2, 2, 2] (List.replicate 5 0) =
      [2 / 3, 2 / 3, 2 / 3 + 2 / 3, 2 / 3, 2 / 3 + 2] :=
  ⟨C4_avg_pooling_clipped_divisor.1 5 3 2 3 2 (by decide),
   C4_avg_pooling_clipped_divisor.2 2⟩
